import Mathlib

set_option maxHeartbeats 1000000

/-!
Verification of `map_IP_to_HOST.py`.

Shallow embedding of the batch DNS-answer / scan-file correlation tool.
The Python program is embedded at the level of parsed newline-delimited
JSON records: a line of the DNS answers file is either skipped input
(blank line, line not starting with a brace, or malformed JSON) or a
record carrying a queried `name` and a list of answers, each with
optional `type` and `data` string fields.  Python dicts are embedded as
insertion-ordered association lists, which exactly captures dict
iteration order and `defaultdict(list)` behaviour used by the program.
IP-address validation (`ipaddress.ip_address`) is embedded by a faithful
translation of CPython's IPv4/IPv6 textual parsing rules, and the
canonical textual form of an address by CPython's printing rules
(RFC 5952 style for IPv6).
-/

/-! ## Python string helpers -/

/-- ASCII whitespace stripped by Python's `str.strip()`. -/
def pyIsSpace (c : Char) : Bool :=
  c == ' ' || c == '\t' || c == '\n' || c == '\r' || c == '\x0b' || c == '\x0c'

def stripL (l : List Char) : List Char :=
  ((l.dropWhile pyIsSpace).reverse.dropWhile pyIsSpace).reverse

/-- Python `str.strip()` (whitespace on both ends). -/
def pyStrip (s : String) : String := ⟨stripL s.data⟩

def rstripDotL (l : List Char) : List Char :=
  (l.reverse.dropWhile (· == '.')).reverse

/-- Python `str.rstrip('.')`: remove every trailing dot. -/
def pyRstripDot (s : String) : String := ⟨rstripDotL s.data⟩

/-- Locate the first occurrence of `sep`, returning the pieces before and
after it, or `none` when `sep` does not occur. -/
def splitFirstL (sep : Char) : List Char → Option (List Char × List Char)
  | [] => none
  | c :: rest =>
    if c = sep then some ([], rest)
    else (splitFirstL sep rest).map (fun p => (c :: p.1, p.2))

/-- Python `s.split(sep, 1)`: the part before the first separator and,
when the separator occurs, the remainder after it. -/
def pySplit1 (s : String) (sep : Char) : String × Option String :=
  match splitFirstL sep s.data with
  | none => (s, none)
  | some (a, b) => (⟨a⟩, some ⟨b⟩)

/-- Python `s.split(sep)` for a one-character separator (no maxsplit):
`"".split(sep) = [""]`, empty chunks are kept. -/
def splitAllL (sep : Char) : List Char → List (List Char)
  | [] => [[]]
  | c :: rest =>
    if c = sep then [] :: splitAllL sep rest
    else
      match splitAllL sep rest with
      | [] => [[c]]
      | p :: ps => (c :: p) :: ps

/-! ## `ipaddress.ip_address` : textual IPv4/IPv6 validation (CPython rules) -/

def digitVal (c : Char) : Nat := c.toNat - '0'.toNat

def hexDigitVal (c : Char) : Option Nat :=
  if '0' ≤ c ∧ c ≤ '9' then some (c.toNat - '0'.toNat)
  else if 'a' ≤ c ∧ c ≤ 'f' then some (c.toNat - 'a'.toNat + 10)
  else if 'A' ≤ c ∧ c ≤ 'F' then some (c.toNat - 'A'.toNat + 10)
  else none

/-- CPython `IPv4Address._parse_octet`: 1–3 ASCII decimal digits, no
leading zero (unless the octet is exactly "0"), value at most 255. -/
def parseOctet (l : List Char) : Option Nat :=
  if l.isEmpty then none
  else if ¬ l.all Char.isDigit then none
  else if 3 < l.length then none
  else if 1 < l.length ∧ l.head? = some '0' then none
  else
    let v := l.foldl (fun a c => a * 10 + digitVal c) 0
    if v ≤ 255 then some v else none

/-- CPython `IPv4Address._ip_int_from_string`: exactly four octets
separated by dots (plus the constructor's rejection of '/'). -/
def parseIPv4 (l : List Char) : Option Nat :=
  if '/' ∈ l then none
  else
    let parts := splitAllL '.' l
    if parts.length ≠ 4 then none
    else
      match parts.mapM parseOctet with
      | some [a, b, c, d] => some (((a * 256 + b) * 256 + c) * 256 + d)
      | _ => none

/-- CPython `IPv6Address._parse_hextet`: 1–4 hex digits. -/
def parseHextet (l : List Char) : Option Nat :=
  if ¬ l.all (fun c => (hexDigitVal c).isSome) then none
  else if 4 < l.length then none
  else if l.isEmpty then none
  else some (l.foldl (fun a c => a * 16 + (hexDigitVal c).getD 0) 0)

/-- One colon-separated chunk of an IPv6 literal: either raw input text,
or the numeric value of one of the two hextets synthesised from a
trailing embedded IPv4 address. -/
inductive Hextet
  | raw (l : List Char)
  | val (n : Nat)
deriving DecidableEq, Repr

def hextetEmpty : Hextet → Bool
  | .raw l => l.isEmpty
  | .val _ => false

def hextetVal : Hextet → Option Nat
  | .raw l => parseHextet l
  | .val n => some n

/-- Replace a trailing dotted-quad part (if any) by its two hextets, as
CPython does before hextet parsing. -/
def ipv6Convert (parts : List (List Char)) : Option (List Hextet) :=
  match parts.getLast? with
  | none => none
  | some last =>
    if '.' ∈ last then
      match parseIPv4 last with
      | none => none
      | some v4 => some (parts.dropLast.map .raw ++ [.val (v4 / 65536), .val (v4 % 65536)])
    else some (parts.map .raw)

def foldHextets (a0 : Nat) (vs : List Nat) : Nat :=
  vs.foldl (fun a v => a * 65536 + v) a0

/-- CPython `IPv6Address._ip_int_from_string`: at least three
colon-separated parts, at most one interior empty part (the `::`), with
the book-keeping of parts before/after the gap exactly as in CPython. -/
def parseIPv6Core (l : List Char) : Option Nat :=
  let parts0 := splitAllL ':' l
  if parts0.length < 3 then none
  else
    match ipv6Convert parts0 with
    | none => none
    | some parts =>
      if 8 + 1 < parts.length then none
      else
        let emptyIdx := (List.range parts.length).filter
          (fun i => decide (0 < i ∧ i + 1 < parts.length) && hextetEmpty (parts.getD i (.raw [])))
        match emptyIdx with
        | [] =>
          if parts.length ≠ 8 then none
          else if hextetEmpty (parts.getD 0 (.raw [])) then none
          else if hextetEmpty (parts.getD 7 (.raw [])) then none
          else
            match parts.mapM hextetVal with
            | none => none
            | some vs => some (foldHextets 0 vs)
        | [i] =>
          let hi0 := i
          let lo0 := parts.length - i - 1
          let firstEmpty := hextetEmpty (parts.getD 0 (.raw []))
          let lastEmpty := hextetEmpty (parts.getD (parts.length - 1) (.raw []))
          let hi := if firstEmpty then hi0 - 1 else hi0
          let lo := if lastEmpty then lo0 - 1 else lo0
          if firstEmpty ∧ hi0 - 1 ≠ 0 then none
          else if lastEmpty ∧ lo0 - 1 ≠ 0 then none
          else if 8 - (hi + lo) < 1 then none
          else
            match (parts.take hi).mapM hextetVal,
                  (parts.drop (parts.length - lo)).mapM hextetVal with
            | some hv, some lv =>
              some (foldHextets (foldHextets 0 hv * 65536 ^ (8 - (hi + lo))) lv)
            | _, _ => none
        | _ => none

/-- CPython `IPv6Address` constructor: reject '/', split off a nonempty
scope zone after '%', parse the address part. -/
def parseIPv6 (l : List Char) : Option (Nat × Option (List Char)) :=
  if '/' ∈ l then none
  else
    match splitFirstL '%' l with
    | none => (parseIPv6Core l).map (fun n => (n, none))
    | some (addr, zone) =>
      if zone.isEmpty ∨ '%' ∈ zone then none
      else (parseIPv6Core addr).map (fun n => (n, some zone))

inductive IPAddr
  | v4 (n : Nat)
  | v6 (n : Nat) (zone : Option (List Char))
deriving DecidableEq, Repr

/-- Python `ipaddress.ip_address`: try IPv4, then IPv6. -/
def parseIP (s : String) : Option IPAddr :=
  match parseIPv4 s.data with
  | some n => some (.v4 n)
  | none =>
    match parseIPv6 s.data with
    | some (n, z) => some (.v6 n z)
    | none => none

/-- Syntactic IP validity, exactly the success of `ipaddress.ip_address`. -/
def isValidIP (s : String) : Bool := (parseIP s).isSome

/-! ## Canonical textual form (CPython `str()` of an address object) -/

def natToHexStr (n : Nat) : String := ⟨Nat.toDigits 16 n⟩

def ipv4String (n : Nat) : String :=
  Nat.repr (n / 16777216 % 256) ++ "." ++ Nat.repr (n / 65536 % 256) ++ "." ++
    Nat.repr (n / 256 % 256) ++ "." ++ Nat.repr (n % 256)

def ipv6HextetVals (n : Nat) : List Nat :=
  [n / 65536 ^ 7 % 65536, n / 65536 ^ 6 % 65536, n / 65536 ^ 5 % 65536,
   n / 65536 ^ 4 % 65536, n / 65536 ^ 3 % 65536, n / 65536 ^ 2 % 65536,
   n / 65536 % 65536, n % 65536]

structure ZeroRunState where
  bestStart : Nat
  bestLen : Nat
  curStart : Nat
  curLen : Nat
  idx : Nat
deriving Repr

/-- First longest run of zero hextets (CPython keeps the earliest run on
ties, since a later run must be strictly longer to replace the best). -/
def bestZeroRun (hx : List Nat) : Nat × Nat :=
  let st := hx.foldl
    (fun s h =>
      if h = 0 then
        let cs := if s.curLen = 0 then s.idx else s.curStart
        let cl := s.curLen + 1
        if s.bestLen < cl then ⟨cs, cl, cs, cl, s.idx + 1⟩
        else ⟨s.bestStart, s.bestLen, cs, cl, s.idx + 1⟩
      else ⟨s.bestStart, s.bestLen, s.curStart, 0, s.idx + 1⟩)
    (⟨0, 0, 0, 0, 0⟩ : ZeroRunState)
  (st.bestStart, st.bestLen)

/-- CPython `IPv6Address._string_from_ip_int`: lowercase hextets without
leading zeros, longest zero run (of length at least 2) compressed to
`::`. -/
def ipv6String (n : Nat) : String :=
  let hx := ipv6HextetVals n
  let strs := hx.map natToHexStr
  let br := bestZeroRun hx
  if 1 < br.2 then
    let ed := br.1 + br.2
    let strs2 := strs.take br.1 ++ [""] ++ strs.drop ed ++ (if ed = 8 then [""] else [])
    let strs3 := if br.1 = 0 then "" :: strs2 else strs2
    String.intercalate ":" strs3
  else String.intercalate ":" strs

def ipAddrString : IPAddr → String
  | .v4 n => ipv4String n
  | .v6 n none => ipv6String n
  | .v6 n (some z) => ipv6String n ++ "%" ++ ⟨z⟩

/-- The canonical textual spelling of the IP address a string denotes
(`str(ipaddress.ip_address(s))`), or `none` when it is not a valid IP. -/
def canonicalIP (s : String) : Option String := (parseIP s).map ipAddrString

/-! ## Data model: parsed DNS answer lines and the two dictionaries -/

/-- One answer object of a record: the `type` and `data` fields as
obtained by `ans.get('type')` / `ans.get('data')` (`none` = field
absent; non-string JSON payloads are outside the model). -/
structure Answer where
  type : Option String
  data : Option String
deriving DecidableEq, Repr

/-- One parsed JSON record of the answers file: `obj.get('name','')` and
`obj.get('data',{}).get('answers',[])`. -/
structure DnsRecord where
  name : String
  answers : List Answer
deriving DecidableEq, Repr

/-- One line of the DNS answers file.  `junk` stands for every line the
loader skips before reaching a record: blank lines, lines not starting
with a brace, and malformed JSON (the latter additionally warns on
stderr, which no claim concerns). -/
inductive DnsLine
  | junk
  | record (r : DnsRecord)
deriving DecidableEq, Repr

/-- The `ip_map : defaultdict(list)`, as an insertion-ordered association
list from IP string to hostname list. -/
abbrev IpMap := List (String × List String)

/-- The `cname_map : dict`, hostname to CNAME target. -/
abbrev CnameMap := List (String × String)

/-- Python `dict.get(key)` / `dict[key]` read (first, and in our maps
only, binding of the key). -/
def lookupOpt {α : Type} : List (String × α) → String → Option α
  | [], _ => none
  | (k, v) :: rest, key => if k = key then some v else lookupOpt rest key

/-- The hostname list held for `ip` (empty when `ip` is not a key):
what `ip_map[ip]` denotes for reading on a `defaultdict(list)`. -/
def lookupList (m : IpMap) (ip : String) : List String := (lookupOpt m ip).getD []

/-- Python `ip_map[ip].append(h)` on a `defaultdict(list)`: extend the list in
place, creating an empty entry at the end of the dict first when the key
is new. -/
def ipAppend : IpMap → String → String → IpMap
  | [], ip, h => [(ip, [h])]
  | (k, hs) :: rest, ip, h =>
    if k = ip then (k, hs ++ [h]) :: rest else (k, hs) :: ipAppend rest ip h

/-- Python `if h not in ip_map[ip]: ip_map[ip].append(h)` (second pass). -/
def ipAppendIfAbsent (m : IpMap) (ip h : String) : IpMap :=
  if h ∈ lookupList m ip then m else ipAppend m ip h

/-- Python `cname_map[h] = t`: overwrite in place, or append a new binding. -/
def cnameInsert : CnameMap → String → String → CnameMap
  | [], h, t => [(h, t)]
  | (k, v) :: rest, h, t =>
    if k = h then (k, t) :: rest else (k, v) :: cnameInsert rest h t

/-! ## First pass of `load_ip_map` -/

/-- The body of `for ans in answers:` for one answer of the record whose
stripped queried name is `host`. -/
def processAnswer (host : String) (st : IpMap × CnameMap) (a : Answer) :
    IpMap × CnameMap :=
  match a.data with
  | none => st
  | some d =>
    if d = "" then st
    else if a.type = some "A" ∨ a.type = some "AAAA" then
      if isValidIP d then (ipAppend st.1 d host, st.2) else st
    else if a.type = some "CNAME" then
      (st.1, cnameInsert st.2 host (pyRstripDot d))
    else st

/-- Processing of one well-formed JSON record: strip the trailing dots
of the name, skip when the name is empty or there are no answers. -/
def processRecord (st : IpMap × CnameMap) (r : DnsRecord) : IpMap × CnameMap :=
  let host := pyRstripDot r.name
  if host = "" ∨ r.answers = [] then st
  else r.answers.foldl (processAnswer host) st

def processDnsLine (st : IpMap × CnameMap) (l : DnsLine) : IpMap × CnameMap :=
  match l with
  | .junk => st
  | .record r => processRecord st r

/-- The first pass of `load_ip_map`: fold the answer-file lines over the
two initially empty dictionaries. -/
def firstPass (ls : List DnsLine) : IpMap × CnameMap :=
  ls.foldl processDnsLine ([], [])

/-! ## `resolve_cname_chain`

The Python function recurses with a shared mutable `visited` set; since
each invocation makes at most one recursive call and only ever adds the
current (unvisited) target, the set is faithfully embedded as a
duplicate-free list threaded through the recursion (its length is the
number of distinct visited names).  The recursion is realised by the
structurally recursive `resolveGo` applied to fuel that provably exceeds
the recursion depth (the depth guard caps it at 10); the theorem
`resolveCnameChain_eq` below recovers the source's recursive equation
verbatim. -/

/-- The scan `for ip, hosts in ip_map.items(): if target in hosts: ...`
collecting, in dict order, every IP whose hostname list contains
`target`. -/
def directIPsFor (im : IpMap) (target : String) : List String :=
  (im.filter (fun p => decide (target ∈ p.2))).map (fun p => p.1)

def resolveGo (cm : CnameMap) (im : IpMap) : Nat → String → List String → List String
  | 0, _, _ => []
  | fuel + 1, target, visited =>
    if target ∈ visited ∨ 10 ≤ visited.length then []
    else
      let direct := directIPsFor im target
      match lookupOpt cm target with
      | some next => direct ++ resolveGo cm im fuel next (target :: visited)
      | none => direct

/-- Python `resolve_cname_chain(target, cname_map, ip_map, visited)` with the
program's fixed `max_depth = 10`. -/
def resolveCnameChain (cm : CnameMap) (im : IpMap) (target : String)
    (visited : List String) : List String :=
  resolveGo cm im (10 - visited.length + 1) target visited

theorem resolveGo_fuel_irrel (cm : CnameMap) (im : IpMap) :
    ∀ f g : Nat, ∀ target : String, ∀ visited : List String,
      10 - visited.length < f → 10 - visited.length < g →
      resolveGo cm im f target visited = resolveGo cm im g target visited := by
  intro f
  induction f with
  | zero => intro g target visited hf; omega
  | succ f ih =>
    intro g target visited hf hg
    match g, hg with
    | g + 1, _ =>
      simp only [resolveGo]
      by_cases hguard : target ∈ visited ∨ 10 ≤ visited.length
      · simp [hguard]
      · simp only [if_neg hguard]
        have hlen : visited.length < 10 := by
          rcases Nat.lt_or_ge visited.length 10 with h | h
          · exact h
          · exact absurd (Or.inr h) hguard
        cases lookupOpt cm target with
        | none => rfl
        | some next =>
          have := ih g next (target :: visited) (by simp; omega) (by simp; omega)
          simp [this]

/-- The recursive equation of `resolve_cname_chain` exactly as written in
the source: guard on the visited set and the depth cap, collect the
direct IPs of the current target, follow one more CNAME link if any. -/
theorem resolveCnameChain_eq (cm : CnameMap) (im : IpMap) (target : String)
    (visited : List String) :
    resolveCnameChain cm im target visited =
      if target ∈ visited ∨ 10 ≤ visited.length then []
      else
        match lookupOpt cm target with
        | some next => directIPsFor im target ++
            resolveCnameChain cm im next (target :: visited)
        | none => directIPsFor im target := by
  unfold resolveCnameChain
  conv_lhs => rw [resolveGo]
  by_cases hguard : target ∈ visited ∨ 10 ≤ visited.length
  · simp [hguard]
  · simp only [if_neg hguard]
    have hlen : visited.length < 10 := by
      rcases Nat.lt_or_ge visited.length 10 with h | h
      · exact h
      · exact absurd (Or.inr h) hguard
    cases lookupOpt cm target with
    | none => rfl
    | some next =>
      have := resolveGo_fuel_irrel cm im (10 - visited.length)
        (10 - (target :: visited).length + 1) next (target :: visited)
        (by simp only [List.length_cons]; omega) (by omega)
      simp [this]

/-! ## Second pass of `load_ip_map`, and the loader itself -/

/-- One iteration of `for cname_host, cname_target in cname_map.items()`:
resolve the chain against the current state of `ip_map` and append the
original hostname to every resolved IP's list unless already present. -/
def secondPassStep (cm : CnameMap) (m : IpMap) (e : String × String) : IpMap :=
  (resolveCnameChain cm m e.2 []).foldl (fun m' ip => ipAppendIfAbsent m' ip e.1) m

def secondPass (cm : CnameMap) (im : IpMap) : IpMap :=
  cm.foldl (secondPassStep cm) im

/-- Python `load_ip_map`: first pass over the answer lines, then CNAME-chain
resolution into the same IP map.  The result is the Resolved Mapping. -/
def loadIpMap (ls : List DnsLine) : IpMap :=
  let st := firstPass ls
  secondPass st.2 st.1

/-! ## The Scan Correlator (`main`'s loop over the scan file) -/

def warnInvalidIP (lineno : Nat) (t : String) : String :=
  "[WARN] invalid IP on line " ++ Nat.repr lineno ++ ": '" ++ t ++ "'"

def warnNoSubdomain (ip : String) (lineno : Nat) : String :=
  "[WARN] no subdomain for IP " ++ ip ++ " (line " ++ Nat.repr lineno ++ ")"

/-- Python line 122, print of the host with optional port: an absent or empty port
prints the bare hostname. -/
def formatHost (host : String) (port : Option String) : String :=
  match port with
  | none => host
  | some p => if p = "" then host else host ++ ":" ++ p

/-- Processing of one raw scan line at 1-based line number `lineno`,
returning the stdout lines and stderr lines it produces. -/
def processScanLine (m : IpMap) (lineno : Nat) (raw : String) :
    List String × List String :=
  let entry := pyStrip raw
  if entry = "" then ([], [])
  else
    let parts := pySplit1 entry ':'
    if isValidIP parts.1 then
      match lookupOpt m parts.1 with
      | none => ([], [warnNoSubdomain parts.1 lineno])
      | some hosts =>
        if hosts = [] then ([], [warnNoSubdomain parts.1 lineno])
        else (hosts.map (fun h => formatHost h parts.2), [])
    else ([], [warnInvalidIP lineno parts.1])

/-- The correlation loop starting at line number `n` (the program starts
at 1; `enumerate` counts every physical line, blank ones included). -/
def runScanFrom (m : IpMap) : Nat → List String → List String × List String
  | _, [] => ([], [])
  | n, raw :: rest =>
    let r := processScanLine m n raw
    let rs := runScanFrom m (n + 1) rest
    (r.1 ++ rs.1, r.2 ++ rs.2)

def runScan (m : IpMap) (lines : List String) : List String × List String :=
  runScanFrom m 1 lines

/-- The whole program after argument handling: build the Resolved
Mapping from the DNS answer lines, then correlate the scan lines,
producing (stdout, stderr) of the correlation phase. -/
def mainRun (dns : List DnsLine) (scan : List String) : List String × List String :=
  runScan (loadIpMap dns) scan

/-! ## State-passing correlator

`ip_map` is a mutable dictionary, so for the frame property the
correlator is also embedded with the dictionary threaded as state; each
dictionary operation returns the (possibly updated) dictionary.  The one
operation the correlator performs is `ip_map.get(ip_part)`, whose
semantics returns the dictionary unchanged (unlike a `defaultdict`
subscript read, which would insert missing keys). -/

/-- Python `dict.get(k)`: the looked-up value and the dictionary as the
operation leaves it. -/
def dictGet (m : IpMap) (k : String) : Option (List String) × IpMap :=
  (lookupOpt m k, m)

def processScanLineSt (m : IpMap) (lineno : Nat) (raw : String) :
    IpMap × List String × List String :=
  let entry := pyStrip raw
  if entry = "" then (m, [], [])
  else
    let parts := pySplit1 entry ':'
    if isValidIP parts.1 then
      let g := dictGet m parts.1
      match g.1 with
      | none => (g.2, [], [warnNoSubdomain parts.1 lineno])
      | some hosts =>
        if hosts = [] then (g.2, [], [warnNoSubdomain parts.1 lineno])
        else (g.2, hosts.map (fun h => formatHost h parts.2), [])
    else (m, [], [warnInvalidIP lineno parts.1])

def runScanSt (m : IpMap) : Nat → List String → IpMap × List String × List String
  | _, [] => (m, [], [])
  | n, raw :: rest =>
    let r := processScanLineSt m n raw
    let rs := runScanSt r.1 (n + 1) rest
    (rs.1, r.2.1 ++ rs.2.1, r.2.2 ++ rs.2.2)

/-! ## Measuring definitions used to state the claims -/

/-- Occurrences of `x` in a list (membership-count under `=`). -/
def countEq (x : String) (l : List String) : Nat :=
  (l.filter (fun y => decide (y = x))).length

/-- Whether one answer of a record for hostname `host` appends `host` to
the list of key `ip` in the first pass: a nonempty `data` equal to `ip`,
an `A`/`AAAA` type tag, and successful IP validation. -/
def answerAddsIp (ip : String) (a : Answer) : Bool :=
  match a.data with
  | none => false
  | some d => decide (d ≠ "") && decide (a.type = some "A" ∨ a.type = some "AAAA")
      && isValidIP d && decide (d = ip)

/-- How many answers of one record append hostname `h` to IP `ip`'s list. -/
def recordPairCount (ip h : String) (r : DnsRecord) : Nat :=
  let host := pyRstripDot r.name
  if host = "" ∨ r.answers = [] then 0
  else if host = h then (r.answers.filter (answerAddsIp ip)).length else 0

/-- How many well-formed A/AAAA answers of the input produce the pair
`(h, ip)`: the number of direct appends of `h` to `ip`'s hostname list. -/
def directCount (ls : List DnsLine) (ip h : String) : Nat :=
  (ls.map (fun l => match l with | .junk => 0 | .record r => recordPairCount ip h r)).sum

/-- The raw `data` string of an answer when it passes the A/AAAA guards
of the first pass (nonempty, A/AAAA tag, valid IP), else `none`. -/
def answerDataStr (a : Answer) : Option String :=
  match a.data with
  | none => none
  | some d =>
    if d ≠ "" ∧ (a.type = some "A" ∨ a.type = some "AAAA") ∧ isValidIP d
    then some d else none

/-- The raw `data` strings of answers that pass the A/AAAA guards of the
first pass, in input order: the strings used verbatim as `ip_map` keys. -/
def answerDataStrings (ls : List DnsLine) : List String :=
  (ls.map (fun l =>
    match l with
    | .junk => []
    | .record r =>
      let host := pyRstripDot r.name
      if host = "" ∨ r.answers = [] then []
      else r.answers.filterMap answerDataStr)).flatten

/-- The CNAME target an answer records (spec side): a nonempty `data`
with type tag `CNAME`, trailing dots stripped. -/
def cnameTargetStr (a : Answer) : Option String :=
  match a.data with
  | none => none
  | some d => if d ≠ "" ∧ a.type = some "CNAME" then some (pyRstripDot d) else none

/-- The CNAME targets one record contributes for hostname `h`. -/
def recordCnameTargets (h : String) (r : DnsRecord) : List String :=
  let host := pyRstripDot r.name
  if host = "" ∨ r.answers = [] then []
  else if host = h then r.answers.filterMap cnameTargetStr else []

/-- The CNAME targets recorded for hostname `h`, in file order (the
spec-side reading: every CNAME answer of a kept record whose stripped
name is `h`, its `data` with trailing dots stripped). -/
def cnameTargets (ls : List DnsLine) (h : String) : List String :=
  (ls.map (fun l =>
    match l with
    | .junk => []
    | .record r => recordCnameTargets h r)).flatten

/-- The last element of the list if any, else the fallback (used to state
last-write-wins). -/
def lastOr : List String → Option String → Option String
  | [], o => o
  | t :: ts, _ => lastOr ts (some t)

/-! ## Association-list and counting lemmas -/

theorem countEq_nil (x : String) : countEq x [] = 0 := rfl

theorem countEq_append (x : String) (l₁ l₂ : List String) :
    countEq x (l₁ ++ l₂) = countEq x l₁ + countEq x l₂ := by
  simp [countEq, List.filter_append]

theorem countEq_cons (x y : String) (l : List String) :
    countEq x (y :: l) = (if y = x then 1 else 0) + countEq x l := by
  by_cases h : y = x <;> simp [countEq, h, Nat.add_comm]

theorem countEq_pos_iff_mem (x : String) (l : List String) :
    0 < countEq x l ↔ x ∈ l := by
  induction l with
  | nil => simp [countEq]
  | cons y ys ih =>
    rw [countEq_cons]
    by_cases h : y = x
    · subst h
      simp
    · have hxy : ¬ x = y := fun hc => h hc.symm
      simp [h, hxy, ih]

theorem lookupOpt_mem {α : Type} {m : List (String × α)} {key : String} {v : α}
    (h : lookupOpt m key = some v) : (key, v) ∈ m := by
  induction m with
  | nil => simp [lookupOpt] at h
  | cons p rest ih =>
    obtain ⟨k, w⟩ := p
    by_cases hk : k = key
    · subst hk
      simp [lookupOpt] at h
      simp [h]
    · simp [lookupOpt, hk] at h
      exact List.mem_cons_of_mem _ (ih h)

theorem lookupOpt_ipAppend (m : IpMap) (ip h key : String) :
    lookupOpt (ipAppend m ip h) key =
      if ip = key then some (lookupList m ip ++ [h]) else lookupOpt m key := by
  induction m with
  | nil =>
    by_cases hk : ip = key <;> simp [ipAppend, lookupOpt, lookupList, hk]
  | cons p rest ih =>
    obtain ⟨k, hs⟩ := p
    by_cases h1 : k = ip
    · subst h1
      by_cases h2 : k = key <;>
        simp [ipAppend, lookupOpt, lookupList, h2]
    · by_cases h2 : k = key
      · subst h2
        have : ¬ ip = k := fun hc => h1 hc.symm
        simp [ipAppend, lookupOpt, lookupList, h1, this]
      · simp [ipAppend, lookupOpt, lookupList, h1, h2, ih]

theorem lookupList_ipAppend (m : IpMap) (ip h key : String) :
    lookupList (ipAppend m ip h) key =
      if ip = key then lookupList m ip ++ [h] else lookupList m key := by
  unfold lookupList
  rw [lookupOpt_ipAppend]
  by_cases hk : ip = key <;> simp [hk, lookupList]

theorem ipAppend_keys (m : IpMap) (ip h : String) :
    (ipAppend m ip h).map Prod.fst =
      if ip ∈ m.map Prod.fst then m.map Prod.fst else m.map Prod.fst ++ [ip] := by
  induction m with
  | nil => simp [ipAppend]
  | cons p rest ih =>
    obtain ⟨k, hs⟩ := p
    by_cases h1 : k = ip
    · subst h1
      simp [ipAppend]
    · have : ¬ ip = k := fun hc => h1 hc.symm
      by_cases h2 : ip ∈ rest.map Prod.fst <;>
        simp [ipAppend, h1, this, h2, ih]

theorem lookupOpt_cnameInsert (m : CnameMap) (h t key : String) :
    lookupOpt (cnameInsert m h t) key =
      if h = key then some t else lookupOpt m key := by
  induction m with
  | nil =>
    by_cases hk : h = key <;> simp [cnameInsert, lookupOpt, hk]
  | cons p rest ih =>
    obtain ⟨k, v⟩ := p
    by_cases h1 : k = h
    · subst h1
      by_cases h2 : k = key <;> simp [cnameInsert, lookupOpt, h2]
    · by_cases h2 : k = key
      · subst h2
        have : ¬ h = k := fun hc => h1 hc.symm
        simp [cnameInsert, lookupOpt, h1, this]
      · simp [cnameInsert, lookupOpt, h1, h2, ih]

theorem cnameInsert_keys (m : CnameMap) (h t : String) :
    (cnameInsert m h t).map Prod.fst =
      if h ∈ m.map Prod.fst then m.map Prod.fst else m.map Prod.fst ++ [h] := by
  induction m with
  | nil => simp [cnameInsert]
  | cons p rest ih =>
    obtain ⟨k, v⟩ := p
    by_cases h1 : k = h
    · subst h1
      simp [cnameInsert]
    · have : ¬ h = k := fun hc => h1 hc.symm
      by_cases h2 : h ∈ rest.map Prod.fst <;>
        simp [cnameInsert, h1, this, h2, ih]

theorem cnameInsert_keys_nodup {m : CnameMap} (h t : String)
    (hm : (m.map Prod.fst).Nodup) : ((cnameInsert m h t).map Prod.fst).Nodup := by
  rw [cnameInsert_keys]
  by_cases h2 : h ∈ m.map Prod.fst
  · simpa [h2]
  · simp only [h2, if_false]
    refine List.Nodup.append hm (List.nodup_singleton h) ?_
    intro x hx hmem
    rw [List.mem_singleton] at hmem
    exact h2 (hmem ▸ hx)

/-! ## Lemmas about chain resolution and the second pass -/

theorem directIPsFor_subset_keys {im : IpMap} {target ip : String}
    (h : ip ∈ directIPsFor im target) : ip ∈ im.map Prod.fst := by
  unfold directIPsFor at h
  obtain ⟨p, hp, hp2⟩ := List.mem_map.mp h
  exact hp2 ▸ List.mem_map_of_mem _ (List.mem_of_mem_filter hp)

theorem mem_directIPsFor {im : IpMap} {target ip : String}
    (h : target ∈ lookupList im ip) : ip ∈ directIPsFor im target := by
  unfold lookupList at h
  cases hl : lookupOpt im ip with
  | none => rw [hl] at h; simp at h
  | some l =>
    rw [hl] at h
    simp only [Option.getD_some] at h
    unfold directIPsFor
    refine List.mem_map.mpr ⟨(ip, l), ?_, rfl⟩
    exact List.mem_filter.mpr ⟨lookupOpt_mem hl, by simpa using h⟩

theorem resolveGo_subset_keys (cm : CnameMap) (im : IpMap) :
    ∀ (fuel : Nat) (target : String) (visited : List String) (ip : String),
      ip ∈ resolveGo cm im fuel target visited → ip ∈ im.map Prod.fst := by
  intro fuel
  induction fuel with
  | zero => intro target visited ip h; simp [resolveGo] at h
  | succ fuel ih =>
    intro target visited ip h
    by_cases hguard : target ∈ visited ∨ 10 ≤ visited.length
    · simp [resolveGo, hguard] at h
    · simp only [resolveGo, if_neg hguard] at h
      cases hcm : lookupOpt cm target with
      | none => rw [hcm] at h; exact directIPsFor_subset_keys h
      | some next =>
        rw [hcm] at h
        rcases List.mem_append.mp h with h1 | h2
        · exact directIPsFor_subset_keys h1
        · exact ih next (target :: visited) ip h2

theorem resolveCnameChain_subset_keys {cm : CnameMap} {im : IpMap}
    {target ip : String} {visited : List String}
    (h : ip ∈ resolveCnameChain cm im target visited) : ip ∈ im.map Prod.fst :=
  resolveGo_subset_keys cm im _ target visited ip h

theorem resolveCnameChain_mem_direct {cm : CnameMap} {im : IpMap} {target ip : String}
    {visited : List String} (h1 : target ∉ visited) (h2 : visited.length < 10)
    (h3 : target ∈ lookupList im ip) : ip ∈ resolveCnameChain cm im target visited := by
  rw [resolveCnameChain_eq]
  rw [if_neg (by push_neg; exact ⟨h1, by omega⟩)]
  cases hcm : lookupOpt cm target with
  | none => exact mem_directIPsFor h3
  | some next => exact List.mem_append.mpr (Or.inl (mem_directIPsFor h3))

theorem resolveCnameChain_mem_step {cm : CnameMap} {im : IpMap} {target next ip : String}
    {visited : List String} (h1 : target ∉ visited) (h2 : visited.length < 10)
    (hcm : lookupOpt cm target = some next)
    (h : ip ∈ resolveCnameChain cm im next (target :: visited)) :
    ip ∈ resolveCnameChain cm im target visited := by
  rw [resolveCnameChain_eq]
  rw [if_neg (by push_neg; exact ⟨h1, by omega⟩), hcm]
  exact List.mem_append.mpr (Or.inr h)

theorem lookupList_ipAppendIfAbsent (m : IpMap) (ip h key : String) :
    lookupList (ipAppendIfAbsent m ip h) key =
      if h ∈ lookupList m ip then lookupList m key
      else if ip = key then lookupList m ip ++ [h] else lookupList m key := by
  unfold ipAppendIfAbsent
  by_cases hmem : h ∈ lookupList m ip
  · simp [hmem]
  · simp [hmem, lookupList_ipAppend]

theorem mem_lookupList_ipAppendIfAbsent_mono {m : IpMap} {key x : String} (ip h : String)
    (hx : x ∈ lookupList m key) : x ∈ lookupList (ipAppendIfAbsent m ip h) key := by
  rw [lookupList_ipAppendIfAbsent]
  split_ifs with h1 h2
  · exact hx
  · rw [← h2] at hx
    exact List.mem_append.mpr (Or.inl hx)
  · exact hx

theorem mem_lookupList_ipAppendIfAbsent_self (m : IpMap) (ip h : String) :
    h ∈ lookupList (ipAppendIfAbsent m ip h) ip := by
  rw [lookupList_ipAppendIfAbsent]
  split_ifs with h1 h2
  · exact h1
  · exact List.mem_append.mpr (Or.inr (by simp))
  · exact absurd rfl h2

theorem foldl_appendIfAbsent_mono (c : String) :
    ∀ (ips : List String) (m : IpMap) (key x : String),
      x ∈ lookupList m key →
      x ∈ lookupList (ips.foldl (fun m' i => ipAppendIfAbsent m' i c) m) key
  | [], _, _, _, hx => hx
  | ip :: ips, m, key, x, hx =>
    foldl_appendIfAbsent_mono c ips _ key x
      (mem_lookupList_ipAppendIfAbsent_mono ip c hx)

theorem foldl_appendIfAbsent_adds (c : String) :
    ∀ (ips : List String) (m : IpMap) (ip : String), ip ∈ ips →
      c ∈ lookupList (ips.foldl (fun m' i => ipAppendIfAbsent m' i c) m) ip := by
  intro ips
  induction ips with
  | nil => intro m ip h; simp at h
  | cons i ips ih =>
    intro m ip h
    rcases List.mem_cons.mp h with h1 | h2
    · subst h1
      exact foldl_appendIfAbsent_mono c ips _ ip c
        (mem_lookupList_ipAppendIfAbsent_self m ip c)
    · exact ih _ ip h2

theorem secondPassStep_mono {cm : CnameMap} {m : IpMap} {key x : String}
    (e : String × String) (hx : x ∈ lookupList m key) :
    x ∈ lookupList (secondPassStep cm m e) key :=
  foldl_appendIfAbsent_mono e.1 _ m key x hx

theorem secondPassStep_adds {cm : CnameMap} {m : IpMap} {ip : String}
    (e : String × String) (hip : ip ∈ resolveCnameChain cm m e.2 []) :
    e.1 ∈ lookupList (secondPassStep cm m e) ip :=
  foldl_appendIfAbsent_adds e.1 _ m ip hip

theorem foldl_secondPassStep_mono {cm : CnameMap} :
    ∀ (es : List (String × String)) (m : IpMap) (key x : String),
      x ∈ lookupList m key →
      x ∈ lookupList (es.foldl (secondPassStep cm) m) key
  | [], _, _, _, hx => hx
  | e :: es, m, key, x, hx =>
    foldl_secondPassStep_mono es _ key x (secondPassStep_mono e hx)

theorem secondPass_mono {cm : CnameMap} {im : IpMap} {key x : String}
    (hx : x ∈ lookupList im key) : x ∈ lookupList (secondPass cm im) key :=
  foldl_secondPassStep_mono cm im key x hx

theorem ipAppendIfAbsent_keys_of_mem {m : IpMap} {ip : String} (h : String)
    (hip : ip ∈ m.map Prod.fst) :
    (ipAppendIfAbsent m ip h).map Prod.fst = m.map Prod.fst := by
  unfold ipAppendIfAbsent
  by_cases hmem : h ∈ lookupList m ip
  · simp [hmem]
  · rw [if_neg hmem, ipAppend_keys, if_pos hip]

theorem foldl_appendIfAbsent_keys (c : String) :
    ∀ (ips : List String) (m : IpMap), (∀ ip ∈ ips, ip ∈ m.map Prod.fst) →
      ((ips.foldl (fun m' i => ipAppendIfAbsent m' i c) m)).map Prod.fst =
        m.map Prod.fst := by
  intro ips
  induction ips with
  | nil => intro m _; rfl
  | cons i ips ih =>
    intro m hsub
    have hkeys : (ipAppendIfAbsent m i c).map Prod.fst = m.map Prod.fst :=
      ipAppendIfAbsent_keys_of_mem c (hsub i (List.mem_cons_self i ips))
    simp only [List.foldl_cons]
    rw [ih (ipAppendIfAbsent m i c)
      (fun ip hip => hkeys ▸ hsub ip (List.mem_cons_of_mem i hip)), hkeys]

theorem secondPassStep_keys (cm : CnameMap) (m : IpMap) (e : String × String) :
    (secondPassStep cm m e).map Prod.fst = m.map Prod.fst :=
  foldl_appendIfAbsent_keys e.1 _ m
    (fun _ hip => resolveCnameChain_subset_keys hip)

theorem secondPass_keys (cm : CnameMap) :
    ∀ (es : List (String × String)) (im : IpMap),
      (es.foldl (secondPassStep cm) im).map Prod.fst = im.map Prod.fst := by
  intro es
  induction es with
  | nil => intro im; rfl
  | cons e es ih =>
    intro im
    simp only [List.foldl_cons]
    rw [ih, secondPassStep_keys]

theorem countEq_ipAppendIfAbsent_of_pos {m : IpMap} {key h : String} (ip h' : String)
    (hpos : 0 < countEq h (lookupList m key)) :
    countEq h (lookupList (ipAppendIfAbsent m ip h') key) =
      countEq h (lookupList m key) := by
  rw [lookupList_ipAppendIfAbsent]
  split_ifs with h1 h2
  · rfl
  · rw [← h2] at hpos ⊢
    rw [countEq_append]
    have hne : ¬ h' = h := by
      intro hc
      subst hc
      exact h1 ((countEq_pos_iff_mem h' (lookupList m ip)).mp hpos)
    simp [countEq, hne]
  · rfl

theorem foldl_appendIfAbsent_countEq (c : String) :
    ∀ (ips : List String) (m : IpMap) (key h : String),
      0 < countEq h (lookupList m key) →
      countEq h (lookupList (ips.foldl (fun m' i => ipAppendIfAbsent m' i c) m) key) =
        countEq h (lookupList m key) := by
  intro ips
  induction ips with
  | nil => intro m key h _; rfl
  | cons i ips ih =>
    intro m key h hpos
    have hstep := @countEq_ipAppendIfAbsent_of_pos m key h i c hpos
    simp only [List.foldl_cons]
    rw [ih _ key h (hstep ▸ hpos), hstep]

theorem secondPass_countEq (cm : CnameMap) :
    ∀ (es : List (String × String)) (im : IpMap) (key h : String),
      0 < countEq h (lookupList im key) →
      countEq h (lookupList (es.foldl (secondPassStep cm) im) key) =
        countEq h (lookupList im key) := by
  intro es
  induction es with
  | nil => intro im key h _; rfl
  | cons e es ih =>
    intro im key h hpos
    have hstep : countEq h (lookupList (secondPassStep cm im e) key) =
        countEq h (lookupList im key) :=
      foldl_appendIfAbsent_countEq e.1 _ im key h hpos
    simp only [List.foldl_cons]
    rw [ih _ key h (hstep ▸ hpos), hstep]

/-! ## Lemmas about the first pass -/

theorem countEq_processAnswer (host : String) (st : IpMap × CnameMap) (a : Answer)
    (ip h : String) :
    countEq h (lookupList (processAnswer host st a).1 ip) =
      countEq h (lookupList st.1 ip) +
        (if host = h ∧ answerAddsIp ip a = true then 1 else 0) := by
  unfold processAnswer
  cases hd : a.data with
  | none => simp [answerAddsIp, hd]
  | some d =>
    by_cases hde : d = ""
    · simp [answerAddsIp, hd, hde]
    · by_cases hty : a.type = some "A" ∨ a.type = some "AAAA"
      · by_cases hv : isValidIP d
        · have haddsEq : answerAddsIp ip a = decide (d = ip) := by
            simp [answerAddsIp, hd, hde, hty, hv]
          rw [haddsEq]
          simp only [hde, hty, hv, if_true, if_false, ite_true, ite_false]
          show countEq h (lookupList (ipAppend st.1 d host) ip) = _
          rw [lookupList_ipAppend]
          by_cases hdip : d = ip
          · rw [if_pos hdip, countEq_append, countEq_cons, countEq_nil]
            by_cases hh : host = h
            · simp [hh, hdip]
            · simp [hh, hdip]
          · rw [if_neg hdip]
            simp [hdip]
        · have haddsEq : answerAddsIp ip a = false := by
            simp [answerAddsIp, hd, hv]
          rw [haddsEq]
          simp [hde, hty, hv]
      · have haddsEq : answerAddsIp ip a = false := by
            simp [answerAddsIp, hd, hde, hty]
        rw [haddsEq]
        by_cases hc : a.type = some "CNAME"
        · simp [hde, hty, hc]
        · simp [hde, hty, hc]

theorem countEq_foldl_processAnswer (host : String) :
    ∀ (as : List Answer) (st : IpMap × CnameMap) (ip h : String),
      countEq h (lookupList (as.foldl (processAnswer host) st).1 ip) =
        countEq h (lookupList st.1 ip) +
          (if host = h then (as.filter (answerAddsIp ip)).length else 0) := by
  intro as
  induction as with
  | nil => intro st ip h; simp
  | cons a as ih =>
    intro st ip h
    simp only [List.foldl_cons]
    rw [ih, countEq_processAnswer]
    by_cases hh : host = h
    · by_cases ha : answerAddsIp ip a = true
      · simp [hh, ha, List.filter_cons]
        omega
      · simp [hh, ha, List.filter_cons]
    · simp [hh]

theorem countEq_processRecord (st : IpMap × CnameMap) (r : DnsRecord) (ip h : String) :
    countEq h (lookupList (processRecord st r).1 ip) =
      countEq h (lookupList st.1 ip) + recordPairCount ip h r := by
  unfold processRecord recordPairCount
  by_cases hskip : pyRstripDot r.name = "" ∨ r.answers = []
  · simp [hskip]
  · simp only [if_neg hskip]
    rw [countEq_foldl_processAnswer]

theorem countEq_foldl_processDnsLine :
    ∀ (ls : List DnsLine) (st : IpMap × CnameMap) (ip h : String),
      countEq h (lookupList (ls.foldl processDnsLine st).1 ip) =
        countEq h (lookupList st.1 ip) + directCount ls ip h := by
  intro ls
  induction ls with
  | nil => intro st ip h; simp [directCount]
  | cons l ls ih =>
    intro st ip h
    cases l with
    | junk =>
      simp only [List.foldl_cons, processDnsLine]
      rw [ih]
      simp [directCount]
    | record r =>
      simp only [List.foldl_cons, processDnsLine]
      rw [ih, countEq_processRecord]
      simp [directCount]
      omega

theorem countEq_firstPass (ls : List DnsLine) (ip h : String) :
    countEq h (lookupList (firstPass ls).1 ip) = directCount ls ip h := by
  unfold firstPass
  rw [countEq_foldl_processDnsLine]
  simp [lookupList, lookupOpt, countEq]

/-! ## Keys of the Resolved Mapping are verbatim answer data strings -/

theorem answerDataStr_valid {a : Answer} {d : String}
    (h : answerDataStr a = some d) : isValidIP d = true := by
  cases hd : a.data with
  | none =>
    simp only [answerDataStr, hd] at h
    cases h
  | some d' =>
    simp only [answerDataStr, hd] at h
    by_cases hc : d' ≠ "" ∧ (a.type = some "A" ∨ a.type = some "AAAA") ∧ isValidIP d'
    · rw [if_pos hc] at h
      injection h with h
      exact h ▸ hc.2.2
    · rw [if_neg hc] at h
      cases h

theorem keys_processAnswer_sub (host : String) (st : IpMap × CnameMap) (a : Answer) :
    (processAnswer host st a).1.map Prod.fst ⊆
      st.1.map Prod.fst ++ (answerDataStr a).toList := by
  unfold processAnswer
  cases hd : a.data with
  | none => simp
  | some d =>
    by_cases hde : d = ""
    · simp [hde]
    · by_cases hty : a.type = some "A" ∨ a.type = some "AAAA"
      · by_cases hv : isValidIP d
        · have hstr : answerDataStr a = some d := by
            simp [answerDataStr, hd, hde, hty, hv]
          rw [hstr]
          simp only [hde, hty, hv, if_true, if_false, ite_true, ite_false]
          show (ipAppend st.1 d host).map Prod.fst ⊆ _
          rw [ipAppend_keys]
          by_cases hmem : d ∈ st.1.map Prod.fst
          · rw [if_pos hmem]
            exact List.subset_append_left _ _
          · rw [if_neg hmem]
            intro x hx
            simpa using hx
        · simp only [hde, hty, hv, if_true, if_false, ite_true, ite_false]
          show st.1.map Prod.fst ⊆ _
          exact List.subset_append_left _ _
      · simp only [hde, hty, if_true, if_false, ite_true, ite_false]
        by_cases hc : a.type = some "CNAME"
        · simp only [hc, if_true, ite_true]
          show st.1.map Prod.fst ⊆ _
          exact List.subset_append_left _ _
        · simp only [hc, if_false, ite_false]
          show st.1.map Prod.fst ⊆ _
          exact List.subset_append_left _ _

theorem keys_foldl_processAnswer_sub (host : String) :
    ∀ (as : List Answer) (st : IpMap × CnameMap),
      (as.foldl (processAnswer host) st).1.map Prod.fst ⊆
        st.1.map Prod.fst ++ as.filterMap answerDataStr := by
  intro as
  induction as with
  | nil => intro st; simp
  | cons a as ih =>
    intro st
    simp only [List.foldl_cons, List.filterMap_cons]
    intro x hx
    rcases List.mem_append.mp (ih (processAnswer host st a) hx) with h1 | h2
    · rcases List.mem_append.mp (keys_processAnswer_sub host st a h1) with g1 | g2
      · exact List.mem_append.mpr (Or.inl g1)
      · cases hstr : answerDataStr a with
        | none => rw [hstr] at g2; cases g2
        | some d =>
          rw [hstr] at g2
          simp only [Option.toList_some, List.mem_singleton] at g2
          subst g2
          simp
    · cases hstr : answerDataStr a with
      | none => simp [List.mem_append, h2]
      | some d => simp [List.mem_append, List.mem_cons, h2]

theorem keys_processRecord_sub (st : IpMap × CnameMap) (r : DnsRecord) :
    (processRecord st r).1.map Prod.fst ⊆
      st.1.map Prod.fst ++
        (if pyRstripDot r.name = "" ∨ r.answers = [] then []
         else r.answers.filterMap answerDataStr) := by
  unfold processRecord
  by_cases hskip : pyRstripDot r.name = "" ∨ r.answers = []
  · simp [hskip]
  · simp only [hskip, if_false, ite_false]
    exact keys_foldl_processAnswer_sub (pyRstripDot r.name) r.answers st

theorem keys_foldl_processDnsLine_sub :
    ∀ (ls : List DnsLine) (st : IpMap × CnameMap),
      (ls.foldl processDnsLine st).1.map Prod.fst ⊆
        st.1.map Prod.fst ++ answerDataStrings ls := by
  intro ls
  induction ls with
  | nil => intro st; simp [answerDataStrings]
  | cons l ls ih =>
    intro st
    simp only [List.foldl_cons]
    intro x hx
    have step : (processDnsLine st l).1.map Prod.fst ⊆
        st.1.map Prod.fst ++
          (match l with
           | .junk => []
           | .record r =>
             if pyRstripDot r.name = "" ∨ r.answers = [] then []
             else r.answers.filterMap answerDataStr) := by
      cases l with
      | junk => simp [processDnsLine]
      | record r => exact keys_processRecord_sub st r
    rcases List.mem_append.mp (ih (processDnsLine st l) hx) with h1 | h2
    · rcases List.mem_append.mp (step h1) with g1 | g2
      · exact List.mem_append.mpr (Or.inl g1)
      · refine List.mem_append.mpr (Or.inr ?_)
        show x ∈ answerDataStrings (l :: ls)
        unfold answerDataStrings
        simp only [List.map_cons, List.flatten_cons]
        cases l with
        | junk => cases g2
        | record r =>
          refine List.mem_append.mpr (Or.inl ?_)
          simpa [answerDataStrings] using g2
    · refine List.mem_append.mpr (Or.inr ?_)
      unfold answerDataStrings
      simp only [List.map_cons, List.flatten_cons]
      refine List.mem_append.mpr (Or.inr ?_)
      simpa [answerDataStrings] using h2

theorem keys_loadIpMap_sub (ls : List DnsLine) :
    (loadIpMap ls).map Prod.fst ⊆ answerDataStrings ls := by
  unfold loadIpMap secondPass
  intro k hk
  rw [secondPass_keys] at hk
  have := keys_foldl_processDnsLine_sub ls ([], []) hk
  simpa using this

theorem mem_answerDataStrings_valid {ls : List DnsLine} {x : String}
    (hx : x ∈ answerDataStrings ls) : isValidIP x = true := by
  unfold answerDataStrings at hx
  rw [List.mem_flatten] at hx
  obtain ⟨l, hl, hxl⟩ := hx
  rw [List.mem_map] at hl
  obtain ⟨line, _, rfl⟩ := hl
  cases line with
  | junk => simp at hxl
  | record r =>
    dsimp only at hxl
    by_cases hskip : pyRstripDot r.name = "" ∨ r.answers = []
    · rw [if_pos hskip] at hxl
      cases hxl
    · rw [if_neg hskip] at hxl
      obtain ⟨a, _, ha⟩ := List.mem_filterMap.mp hxl
      exact answerDataStr_valid ha

/-! ## The CNAME map after the first pass: last write wins -/

theorem lastOr_append (l₁ l₂ : List String) (o : Option String) :
    lastOr (l₁ ++ l₂) o = lastOr l₂ (lastOr l₁ o) := by
  induction l₁ generalizing o with
  | nil => rfl
  | cons t ts ih =>
    simp only [List.cons_append, lastOr]
    exact ih (some t)

theorem cname_lookup_processAnswer (host : String) (st : IpMap × CnameMap) (a : Answer)
    (h : String) :
    lookupOpt (processAnswer host st a).2 h =
      lastOr (if host = h then (cnameTargetStr a).toList else [])
        (lookupOpt st.2 h) := by
  cases hd : a.data with
  | none =>
    have h1 : (processAnswer host st a).2 = st.2 := by simp [processAnswer, hd]
    have h2 : cnameTargetStr a = none := by simp [cnameTargetStr, hd]
    rw [h1, h2]
    by_cases hh : host = h <;> simp [hh, lastOr]
  | some d =>
    by_cases hde : d = ""
    · have h1 : (processAnswer host st a).2 = st.2 := by simp [processAnswer, hd, hde]
      have h2 : cnameTargetStr a = none := by simp [cnameTargetStr, hd, hde]
      rw [h1, h2]
      by_cases hh : host = h <;> simp [hh, lastOr]
    · by_cases hty : a.type = some "A" ∨ a.type = some "AAAA"
      · have hcn : ¬ a.type = some "CNAME" := by
          rcases hty with h' | h' <;> rw [h'] <;> simp
        have h1 : (processAnswer host st a).2 = st.2 := by
          by_cases hv : isValidIP d <;> simp [processAnswer, hd, hde, hty, hv]
        have h2 : cnameTargetStr a = none := by simp [cnameTargetStr, hd, hde, hcn]
        rw [h1, h2]
        by_cases hh : host = h <;> simp [hh, lastOr]
      · by_cases hc : a.type = some "CNAME"
        · have h1 : (processAnswer host st a).2 = cnameInsert st.2 host (pyRstripDot d) := by
            simp [processAnswer, hd, hde, hty, hc]
          have h2 : cnameTargetStr a = some (pyRstripDot d) := by
            simp [cnameTargetStr, hd, hde, hc]
          rw [h1, h2, lookupOpt_cnameInsert]
          by_cases hh : host = h <;> simp [hh, lastOr]
        · have h1 : (processAnswer host st a).2 = st.2 := by
            simp [processAnswer, hd, hde, hty, hc]
          have h2 : cnameTargetStr a = none := by simp [cnameTargetStr, hd, hde, hc]
          rw [h1, h2]
          by_cases hh : host = h <;> simp [hh, lastOr]

theorem cname_lookup_foldl_processAnswer (host : String) :
    ∀ (as : List Answer) (st : IpMap × CnameMap) (h : String),
      lookupOpt (as.foldl (processAnswer host) st).2 h =
        lastOr (if host = h then as.filterMap cnameTargetStr else [])
          (lookupOpt st.2 h) := by
  intro as
  induction as with
  | nil => intro st h; by_cases hh : host = h <;> simp [hh, lastOr]
  | cons a as ih =>
    intro st h
    simp only [List.foldl_cons]
    rw [ih, cname_lookup_processAnswer]
    by_cases hh : host = h
    · simp only [hh, if_true, ite_true]
      cases hstr : cnameTargetStr a with
      | none => simp [List.filterMap_cons, hstr, lastOr]
      | some t => simp [List.filterMap_cons, hstr, lastOr]
    · simp [hh, lastOr]

theorem cname_lookup_processRecord (st : IpMap × CnameMap) (r : DnsRecord) (h : String) :
    lookupOpt (processRecord st r).2 h =
      lastOr (recordCnameTargets h r) (lookupOpt st.2 h) := by
  unfold processRecord recordCnameTargets
  by_cases hskip : pyRstripDot r.name = "" ∨ r.answers = []
  · simp [hskip, lastOr]
  · simp only [hskip, if_false, ite_false]
    rw [cname_lookup_foldl_processAnswer]

theorem cname_lookup_foldl_processDnsLine :
    ∀ (ls : List DnsLine) (st : IpMap × CnameMap) (h : String),
      lookupOpt (ls.foldl processDnsLine st).2 h =
        lastOr (cnameTargets ls h) (lookupOpt st.2 h) := by
  intro ls
  induction ls with
  | nil => intro st h; simp [cnameTargets, lastOr]
  | cons l ls ih =>
    intro st h
    cases l with
    | junk =>
      simp only [List.foldl_cons, processDnsLine]
      rw [ih]
      simp [cnameTargets]
    | record r =>
      simp only [List.foldl_cons, processDnsLine]
      rw [ih, cname_lookup_processRecord]
      have : cnameTargets (DnsLine.record r :: ls) h =
          recordCnameTargets h r ++ cnameTargets ls h := by
        simp [cnameTargets]
      rw [this, lastOr_append]

theorem cname_lookup_firstPass (ls : List DnsLine) (h : String) :
    lookupOpt (firstPass ls).2 h = lastOr (cnameTargets ls h) none := by
  unfold firstPass
  rw [cname_lookup_foldl_processDnsLine]
  rfl

theorem cname_keys_nodup_processAnswer (host : String) (st : IpMap × CnameMap)
    (a : Answer) (hnd : (st.2.map Prod.fst).Nodup) :
    ((processAnswer host st a).2.map Prod.fst).Nodup := by
  cases hd : a.data with
  | none =>
    have h1 : (processAnswer host st a).2 = st.2 := by simp [processAnswer, hd]
    rw [h1]; exact hnd
  | some d =>
    by_cases hde : d = ""
    · have h1 : (processAnswer host st a).2 = st.2 := by simp [processAnswer, hd, hde]
      rw [h1]; exact hnd
    · by_cases hty : a.type = some "A" ∨ a.type = some "AAAA"
      · have h1 : (processAnswer host st a).2 = st.2 := by
          by_cases hv : isValidIP d <;> simp [processAnswer, hd, hde, hty, hv]
        rw [h1]; exact hnd
      · by_cases hc : a.type = some "CNAME"
        · have h1 : (processAnswer host st a).2 = cnameInsert st.2 host (pyRstripDot d) := by
            simp [processAnswer, hd, hde, hty, hc]
          rw [h1]
          exact cnameInsert_keys_nodup host (pyRstripDot d) hnd
        · have h1 : (processAnswer host st a).2 = st.2 := by
            simp [processAnswer, hd, hde, hty, hc]
          rw [h1]; exact hnd

theorem cname_keys_nodup_foldl_processAnswer (host : String) :
    ∀ (as : List Answer) (st : IpMap × CnameMap),
      (st.2.map Prod.fst).Nodup →
      ((as.foldl (processAnswer host) st).2.map Prod.fst).Nodup
  | [], _, hnd => hnd
  | a :: as, st, hnd =>
    cname_keys_nodup_foldl_processAnswer host as _
      (cname_keys_nodup_processAnswer host st a hnd)

theorem cname_keys_nodup_processRecord (st : IpMap × CnameMap) (r : DnsRecord)
    (hnd : (st.2.map Prod.fst).Nodup) :
    ((processRecord st r).2.map Prod.fst).Nodup := by
  unfold processRecord
  by_cases hskip : pyRstripDot r.name = "" ∨ r.answers = []
  · simpa [hskip] using hnd
  · simp only [hskip, if_false, ite_false]
    exact cname_keys_nodup_foldl_processAnswer _ r.answers st hnd

theorem cname_keys_nodup_foldl_processDnsLine :
    ∀ (ls : List DnsLine) (st : IpMap × CnameMap),
      (st.2.map Prod.fst).Nodup →
      ((ls.foldl processDnsLine st).2.map Prod.fst).Nodup
  | [], _, hnd => hnd
  | l :: ls, st, hnd => by
    simp only [List.foldl_cons]
    refine cname_keys_nodup_foldl_processDnsLine ls _ ?_
    cases l with
    | junk => exact hnd
    | record r => exact cname_keys_nodup_processRecord st r hnd

theorem cname_keys_nodup_firstPass (ls : List DnsLine) :
    (((firstPass ls).2).map Prod.fst).Nodup :=
  cname_keys_nodup_foldl_processDnsLine ls ([], []) (by simp)

/-! ## Correlator lemmas -/

theorem runScanFrom_append (m : IpMap) :
    ∀ (pre rest : List String) (n : Nat),
      runScanFrom m n (pre ++ rest) =
        ((runScanFrom m n pre).1 ++ (runScanFrom m (n + pre.length) rest).1,
         (runScanFrom m n pre).2 ++ (runScanFrom m (n + pre.length) rest).2) := by
  intro pre
  induction pre with
  | nil => intro rest n; simp [runScanFrom]
  | cons raw pre ih =>
    intro rest n
    have harith : n + 1 + pre.length = n + (pre.length + 1) := by omega
    simp only [List.cons_append, runScanFrom, List.length_cons, List.append_eq]
    rw [ih rest (n + 1), harith]
    simp [List.append_assoc]

theorem processScanLine_invalid (m : IpMap) (n : Nat) (raw : String)
    (hne : pyStrip raw ≠ "")
    (hbad : isValidIP (pySplit1 (pyStrip raw) ':').1 = false) :
    processScanLine m n raw =
      ([], [warnInvalidIP n (pySplit1 (pyStrip raw) ':').1]) := by
  unfold processScanLine
  rw [if_neg hne]
  simp [hbad]

theorem processScanLineSt_fst (m : IpMap) (n : Nat) (raw : String) :
    (processScanLineSt m n raw).1 = m := by
  unfold processScanLineSt dictGet
  by_cases he : pyStrip raw = ""
  · simp [he]
  · simp only [if_neg he]
    by_cases hv : isValidIP (pySplit1 (pyStrip raw) ':').1
    · simp only [hv, if_true, ite_true]
      cases lookupOpt m (pySplit1 (pyStrip raw) ':').1 with
      | none => simp
      | some hosts =>
        by_cases hh : hosts = [] <;> simp [hh]
    · simp [hv]

theorem runScanSt_fst : ∀ (lines : List String) (m : IpMap) (n : Nat),
    (runScanSt m n lines).1 = m := by
  intro lines
  induction lines with
  | nil => intro m n; rfl
  | cons raw rest ih =>
    intro m n
    simp only [runScanSt]
    rw [ih, processScanLineSt_fst]

/-! ## String plumbing for the concrete scan-entry shapes -/

theorem strMk_data (s : String) : (⟨s.data⟩ : String) = s := by
  cases s
  rfl

theorem splitFirstL_append (sep : Char) :
    ∀ (l₁ l₂ : List Char), sep ∉ l₁ →
      splitFirstL sep (l₁ ++ sep :: l₂) = some (l₁, l₂) := by
  intro l₁
  induction l₁ with
  | nil => intro l₂ _; simp [splitFirstL]
  | cons c cs ih =>
    intro l₂ hmem
    have hc : ¬ c = sep := fun hcc => hmem (hcc ▸ List.mem_cons_self c cs)
    simp only [List.cons_append, splitFirstL, if_neg hc, List.append_eq]
    rw [ih l₂ (fun hs => hmem (List.mem_cons_of_mem c hs))]
    rfl

theorem pySplit1_colon (ip rest : String) (h : ':' ∉ ip.data) :
    pySplit1 (ip ++ (⟨':' :: rest.data⟩ : String)) ':' = (ip, some rest) := by
  unfold pySplit1
  have hdata : (ip ++ (⟨':' :: rest.data⟩ : String)).data = ip.data ++ ':' :: rest.data := by
    rw [String.data_append]
  rw [hdata, splitFirstL_append ':' ip.data rest.data h]

theorem str_ne_empty_of_data_ne {s : String} (h : s.data ≠ []) : s ≠ "" := by
  intro hc
  exact h (by rw [hc])

theorem append_colon_data (ip rest : String) :
    (ip ++ (⟨':' :: rest.data⟩ : String)).data = ip.data ++ ':' :: rest.data :=
  String.data_append ip _

/-! ## Concrete inputs for the claims -/

/-- Two answer-file lines, each a well-formed A answer producing the same
(hostname, IP) pair. -/
def c1input : List DnsLine :=
  [.record ⟨"h.", [⟨some "A", some "1.2.3.4"⟩]⟩,
   .record ⟨"h.", [⟨some "A", some "1.2.3.4"⟩]⟩]

/-- A CNAME chain `h1 → h2 → h3` where only `h3` has a direct A record. -/
def c2input : List DnsLine :=
  [.record ⟨"h3.", [⟨some "A", some "1.2.3.4"⟩]⟩,
   .record ⟨"h1.", [⟨some "CNAME", some "h2."⟩]⟩,
   .record ⟨"h2.", [⟨some "CNAME", some "h3."⟩]⟩]

/-- One AAAA answer whose data is a syntactically valid but
non-canonical spelling of the loopback address. -/
def c3input : List DnsLine :=
  [.record ⟨"h.", [⟨some "AAAA", some "0:0:0:0:0:0:0:1"⟩]⟩]

/-- A CNAME chain `h0 → n1 → … → n11` of 11 distinct target names, each
`nᵢ` also holding a direct A record to `10.0.0.i`. -/
def c4input : List DnsLine :=
  [.record ⟨"h0.", [⟨some "CNAME", some "n1."⟩]⟩,
   .record ⟨"n1.", [⟨some "A", some "10.0.0.1"⟩, ⟨some "CNAME", some "n2."⟩]⟩,
   .record ⟨"n2.", [⟨some "A", some "10.0.0.2"⟩, ⟨some "CNAME", some "n3."⟩]⟩,
   .record ⟨"n3.", [⟨some "A", some "10.0.0.3"⟩, ⟨some "CNAME", some "n4."⟩]⟩,
   .record ⟨"n4.", [⟨some "A", some "10.0.0.4"⟩, ⟨some "CNAME", some "n5."⟩]⟩,
   .record ⟨"n5.", [⟨some "A", some "10.0.0.5"⟩, ⟨some "CNAME", some "n6."⟩]⟩,
   .record ⟨"n6.", [⟨some "A", some "10.0.0.6"⟩, ⟨some "CNAME", some "n7."⟩]⟩,
   .record ⟨"n7.", [⟨some "A", some "10.0.0.7"⟩, ⟨some "CNAME", some "n8."⟩]⟩,
   .record ⟨"n8.", [⟨some "A", some "10.0.0.8"⟩, ⟨some "CNAME", some "n9."⟩]⟩,
   .record ⟨"n9.", [⟨some "A", some "10.0.0.9"⟩, ⟨some "CNAME", some "n10."⟩]⟩,
   .record ⟨"n10.", [⟨some "A", some "10.0.0.10"⟩, ⟨some "CNAME", some "n11."⟩]⟩,
   .record ⟨"n11.", [⟨some "A", some "10.0.0.11"⟩]⟩]

/-! ## Remaining helper lemmas for the claims -/

theorem lookupOpt_split {α : Type} {m : List (String × α)} {k : String} {v : α}
    (h : lookupOpt m k = some v) : ∃ pre post, m = pre ++ (k, v) :: post := by
  induction m with
  | nil => cases h
  | cons p rest ih =>
    obtain ⟨k', v'⟩ := p
    by_cases hk : k' = k
    · subst hk
      simp [lookupOpt] at h
      exact ⟨[], rest, by simp [h]⟩
    · simp only [lookupOpt, if_neg hk] at h
      obtain ⟨pre, post, heq⟩ := ih h
      exact ⟨(k', v') :: pre, post, by rw [heq]; rfl⟩

/-- If `(c, t)` is the binding the second pass processes for `c`, and the
chain from `t` is guaranteed to reach `X` in whatever state the map has
at that moment, then after the whole second pass `c` is in `X`'s list. -/
theorem secondPass_mem_of_entry (cm : CnameMap) (im : IpMap) (c t X hGuard : String)
    (hct : lookupOpt cm c = some t)
    (hres : ∀ m : IpMap, hGuard ∈ lookupList m X → X ∈ resolveCnameChain cm m t [])
    (hdir : hGuard ∈ lookupList im X) :
    c ∈ lookupList (List.foldl (secondPassStep cm) im cm) X := by
  obtain ⟨pre, post, hsplit⟩ := lookupOpt_split hct
  subst hsplit
  rw [List.foldl_append, List.foldl_cons]
  have hm1 : hGuard ∈ lookupList (List.foldl (secondPassStep (pre ++ (c, t) :: post)) im pre) X :=
    foldl_secondPassStep_mono pre im X hGuard hdir
  have hX : X ∈ resolveCnameChain (pre ++ (c, t) :: post)
      (List.foldl (secondPassStep (pre ++ (c, t) :: post)) im pre) t [] :=
    hres _ hm1
  have hc : c ∈ lookupList
      (secondPassStep (pre ++ (c, t) :: post)
        (List.foldl (secondPassStep (pre ++ (c, t) :: post)) im pre) (c, t)) X :=
    secondPassStep_adds (c, t) hX
  exact foldl_secondPassStep_mono post _ X c hc

theorem loadIpMap_singleA (host ip : String) (hname : pyRstripDot host = host)
    (hhost : host ≠ "") (hv : isValidIP ip = true) (hipne : ip ≠ "") :
    loadIpMap [DnsLine.record ⟨host, [⟨some "A", some ip⟩]⟩] = [(ip, [host])] := by
  simp [loadIpMap, firstPass, secondPass, processDnsLine, processRecord, processAnswer,
        hname, hhost, hipne, hv, ipAppend]

theorem processScanLine_hit (m : IpMap) (n : Nat) (ip port : String) (hosts : List String)
    (hcolon : ':' ∉ ip.data)
    (hstrip : pyStrip (ip ++ (⟨':' :: port.data⟩ : String)) =
      ip ++ (⟨':' :: port.data⟩ : String))
    (hvalid : isValidIP ip = true)
    (hlook : lookupOpt m ip = some hosts)
    (hne : hosts ≠ []) :
    processScanLine m n (ip ++ (⟨':' :: port.data⟩ : String)) =
      (hosts.map (fun h => formatHost h (some port)), []) := by
  have hene : (ip ++ (⟨':' :: port.data⟩ : String)) ≠ "" := by
    apply str_ne_empty_of_data_ne
    rw [append_colon_data]
    simp
  unfold processScanLine
  rw [hstrip, if_neg hene, pySplit1_colon ip port hcolon]
  simp only [hvalid, if_true, ite_true, hlook, hne, if_neg hne, ite_false]

/-! ## The claims -/

/-- Claim C1, counterexample: the claim says a (hostname, IP) pair
produced more than once by well-formed A/AAAA answers leaves the
hostname exactly once in that IP's list.  On `c1input` (the pair
("h", "1.2.3.4") produced twice) the first pass appends the hostname
each time, so it appears twice, not once: the direct-resolution loop has
no duplicate check (only the CNAME second pass does). -/
theorem claim1_counterexample :
    loadIpMap c1input = [("1.2.3.4", ["h", "h"])] ∧
    countEq "h" (lookupList (loadIpMap c1input) "1.2.3.4") ≠ 1 := by
  constructor
  · decide
  · decide

/-- Claim C1, amended: a hostname with at least one direct A/AAAA answer
for an IP appears in that IP's hostname list exactly as many times as
well-formed A/AAAA answers produce the pair — duplicates are re-added by
the direct pass, and the deduplicating second pass never changes the
count of an already-present hostname. -/
theorem claim1_amended (ls : List DnsLine) (ip h : String)
    (hpos : 0 < directCount ls ip h) :
    countEq h (lookupList (loadIpMap ls) ip) = directCount ls ip h := by
  show countEq h (lookupList (secondPass (firstPass ls).2 (firstPass ls).1) ip) = _
  unfold secondPass
  rw [secondPass_countEq (firstPass ls).2 (firstPass ls).2 (firstPass ls).1 ip h
      (by rw [countEq_firstPass]; exact hpos)]
  exact countEq_firstPass ls ip h

/-- Claim C1 witness: on `c1input` the pair is produced twice and the
hostname indeed appears twice. -/
theorem claim1_amended_witness :
    0 < directCount c1input "1.2.3.4" "h" ∧
    countEq "h" (lookupList (loadIpMap c1input) "1.2.3.4") =
      directCount c1input "1.2.3.4" "h" :=
  ⟨by decide, claim1_amended c1input "1.2.3.4" "h" (by decide)⟩

/-- Claim C2, counterexample: for the chain `h1 → h2 → h3` with only a
direct A record on `h3` (to `1.2.3.4`), the claim says the Resolved
Mapping entry for that IP contains `h1` and `h3` but not `h2`.  In fact
the second pass iterates over every CNAME key, including the
intermediate `h2` (whose own chain `h2 → h3` also reaches the IP), so
the final list is `["h3", "h1", "h2"]` — `h2` is present. -/
theorem claim2_counterexample :
    (firstPass c2input).1 = [("1.2.3.4", ["h3"])] ∧
    (firstPass c2input).2 = [("h1", "h2"), ("h2", "h3")] ∧
    lookupList (loadIpMap c2input) "1.2.3.4" = ["h3", "h1", "h2"] ∧
    "h2" ∈ lookupList (loadIpMap c2input) "1.2.3.4" := by
  refine ⟨by decide, by decide, by decide, by decide⟩

/-- Claim C2, amended: for a CNAME chain `h1 → h2 → h3` (recorded in the
first-pass CNAME map) where `h3` sits in IP `X`'s direct list and `h1`,
`h2` have no direct records, the Resolved Mapping entry for `X` contains
`h1`, `h3` — and also `h2`, because every hostname with a CNAME record
gets its own chain resolved, intermediates included. -/
theorem claim2_amended (ls : List DnsLine) (h1 h2 h3 X : String)
    (hc1 : lookupOpt (firstPass ls).2 h1 = some h2)
    (hc2 : lookupOpt (firstPass ls).2 h2 = some h3)
    (hdir : h3 ∈ lookupList (firstPass ls).1 X)
    (h23 : h2 ≠ h3)
    (_hnd1 : h1 ∉ ((firstPass ls).1.map Prod.snd).flatten)
    (_hnd2 : h2 ∉ ((firstPass ls).1.map Prod.snd).flatten) :
    h1 ∈ lookupList (loadIpMap ls) X ∧ h2 ∈ lookupList (loadIpMap ls) X ∧
      h3 ∈ lookupList (loadIpMap ls) X := by
  have hload : loadIpMap ls =
      List.foldl (secondPassStep (firstPass ls).2) (firstPass ls).1 (firstPass ls).2 := rfl
  refine ⟨?_, ?_, ?_⟩
  · rw [hload]
    refine secondPass_mem_of_entry (firstPass ls).2 (firstPass ls).1 h1 h2 X h3 hc1 ?_ hdir
    intro m hm
    refine resolveCnameChain_mem_step (by simp) (by simp) hc2 ?_
    exact resolveCnameChain_mem_direct (by simpa using fun hc => h23 hc.symm)
      (by simp) hm
  · rw [hload]
    refine secondPass_mem_of_entry (firstPass ls).2 (firstPass ls).1 h2 h3 X h3 hc2 ?_ hdir
    intro m hm
    exact resolveCnameChain_mem_direct (by simp) (by simp) hm
  · rw [hload]
    exact foldl_secondPassStep_mono (firstPass ls).2 (firstPass ls).1 X h3 hdir

/-- Claim C2 witness: the amended statement at the concrete chain input. -/
theorem claim2_amended_witness :
    lookupOpt (firstPass c2input).2 "h1" = some "h2" ∧
    lookupOpt (firstPass c2input).2 "h2" = some "h3" ∧
    "h3" ∈ lookupList (firstPass c2input).1 "1.2.3.4" ∧
    ("h2" : String) ≠ "h3" ∧
    "h1" ∉ ((firstPass c2input).1.map Prod.snd).flatten ∧
    "h2" ∉ ((firstPass c2input).1.map Prod.snd).flatten ∧
    ("h1" ∈ lookupList (loadIpMap c2input) "1.2.3.4" ∧
     "h2" ∈ lookupList (loadIpMap c2input) "1.2.3.4" ∧
     "h3" ∈ lookupList (loadIpMap c2input) "1.2.3.4") :=
  ⟨by decide, by decide, by decide, by decide, by decide, by decide,
    claim2_amended c2input "h1" "h2" "h3" "1.2.3.4" (by decide) (by decide) (by decide)
      (by decide) (by decide) (by decide)⟩

/-- Claim C3, counterexample: the claim says every key of the Resolved
Mapping is the canonical textual form of the address it denotes.  The
loader stores the raw `data` string: on `c3input`, whose answer carries
the valid but non-canonical spelling "0:0:0:0:0:0:0:1" (canonically
"::1"), the stored key is the raw spelling, which is not canonical. -/
theorem claim3_counterexample :
    ¬ (∀ (ls : List DnsLine) (k : String),
        k ∈ (loadIpMap ls).map Prod.fst → canonicalIP k = some k) := by
  intro hclaim
  have h1 : "0:0:0:0:0:0:0:1" ∈ (loadIpMap c3input).map Prod.fst := by decide
  have h2 := hclaim c3input "0:0:0:0:0:0:0:1" h1
  have h3 : canonicalIP "0:0:0:0:0:0:0:1" = some "::1" := by decide
  rw [h3] at h2
  exact absurd h2 (by decide)

/-- Claim C3, amended: every key of the Resolved Mapping is the raw
`data` string of some well-formed A/AAAA answer, stored verbatim after
validation (no canonicalisation): the CNAME pass adds no keys, and the
direct pass keys the map by the unmodified validated string. -/
theorem claim3_amended (ls : List DnsLine) (k : String)
    (hk : k ∈ (loadIpMap ls).map Prod.fst) :
    k ∈ answerDataStrings ls ∧ isValidIP k = true := by
  have h1 := keys_loadIpMap_sub ls hk
  exact ⟨h1, mem_answerDataStrings_valid h1⟩

/-- Claim C3 witness: the non-canonical key of `c3input` is a verbatim,
valid answer data string. -/
theorem claim3_amended_witness :
    "0:0:0:0:0:0:0:1" ∈ (loadIpMap c3input).map Prod.fst ∧
    ("0:0:0:0:0:0:0:1" ∈ answerDataStrings c3input ∧
      isValidIP "0:0:0:0:0:0:0:1" = true) :=
  ⟨by decide, claim3_amended c3input "0:0:0:0:0:0:0:1" (by decide)⟩

/-- Claim C4: chain traversal stops as soon as the current target was
already visited or 10 distinct names have been visited (the guard
returns the empty result, contributing nothing); concretely, on the
11-name chain of `c4input` the original hostname `h0` reaches the 10th
name's IP but not the 11th's. -/
theorem claim4_depth_guard :
    (∀ (cm : CnameMap) (im : IpMap) (target : String) (visited : List String),
        target ∈ visited ∨ 10 ≤ visited.length →
        resolveCnameChain cm im target visited = []) ∧
    ("h0" ∈ lookupList (loadIpMap c4input) "10.0.0.10" ∧
     "h0" ∉ lookupList (loadIpMap c4input) "10.0.0.11") := by
  refine ⟨?_, by decide, by decide⟩
  intro cm im target visited hguard
  rw [resolveCnameChain_eq, if_pos hguard]

/-- Claim C4 witness: the guard fires on an already-visited target. -/
theorem claim4_witness :
    (("a" : String) ∈ ["a"] ∨ 10 ≤ (["a"] : List String).length) ∧
      resolveCnameChain [] [] "a" ["a"] = [] :=
  ⟨Or.inl (by decide), claim4_depth_guard.1 [] [] "a" ["a"] (Or.inl (by decide))⟩

/-- Fuel-instrumented `resolve_cname_chain`: `none` means the recursion
did not finish within the given number of nested calls. -/
def resolveCnameChainFuel : Nat → CnameMap → IpMap → String → List String → Option (List String)
  | 0, _, _, _, _ => none
  | fuel + 1, cm, im, target, visited =>
    if target ∈ visited ∨ 10 ≤ visited.length then some []
    else
      match lookupOpt cm target with
      | some next => (resolveCnameChainFuel fuel cm im next (target :: visited)).map
          (fun r => directIPsFor im target ++ r)
      | none => some (directIPsFor im target)

theorem resolveCnameChainFuel_eq :
    ∀ (fuel : Nat) (cm : CnameMap) (im : IpMap) (target : String) (visited : List String),
      10 - visited.length < fuel →
      resolveCnameChainFuel fuel cm im target visited =
        some (resolveCnameChain cm im target visited) := by
  intro fuel
  induction fuel with
  | zero => intro cm im t v h; omega
  | succ fuel ih =>
    intro cm im t v h
    rw [resolveCnameChainFuel, resolveCnameChain_eq]
    by_cases hguard : t ∈ v ∨ 10 ≤ v.length
    · simp [hguard]
    · have hlen : v.length < 10 := by
        rcases Nat.lt_or_ge v.length 10 with h' | h'
        · exact h'
        · exact absurd (Or.inr h') hguard
      rw [if_neg hguard, if_neg hguard]
      cases hcm : lookupOpt cm t with
      | none => rfl
      | some next =>
        have hrec := ih cm im next (t :: v) (by simp only [List.length_cons]; omega)
        simp [hrec]

/-- Claim C5: chain resolution terminates on every input — 11 nested
calls always suffice (the visited-set guard caps the recursion), so the
fuel-instrumented recursion never runs out and agrees with the total
function; in particular the two-element cycle resolves (to the empty
result, adding nothing beyond direct records). -/
theorem claim5_termination :
    (∀ (cm : CnameMap) (im : IpMap) (target : String),
        resolveCnameChainFuel 11 cm im target [] =
          some (resolveCnameChain cm im target [])) ∧
    resolveCnameChain [("h1", "h2"), ("h2", "h1")] [] "h1" [] = [] := by
  refine ⟨?_, by decide⟩
  intro cm im target
  exact resolveCnameChainFuel_eq 11 cm im target [] (by simp)

/-- Claim C6: a DNS answers file whose only record is a well-formed A
answer mapping `host` to the IPv4 literal `ip`, with a scan file whose
only entry is `ip:8080`, prints exactly the line `host:8080`.  The
well-formedness of the inputs is spelled out as hypotheses: the hostname
is nonempty with no trailing dot, the A data is an IPv4 literal (hence
colon-free), and the scan line carries no surrounding whitespace. -/
theorem claim6_round_trip (host ip : String)
    (hname : pyRstripDot host = host) (hhost : host ≠ "")
    (hv4 : (parseIPv4 ip.data).isSome = true)
    (hcolon : ':' ∉ ip.data)
    (hstrip : pyStrip (ip ++ ":8080") = ip ++ ":8080") :
    (mainRun [DnsLine.record ⟨host, [⟨some "A", some ip⟩]⟩] [ip ++ ":8080"]).1 =
      [host ++ ":8080"] := by
  obtain ⟨n, hn⟩ := Option.isSome_iff_exists.mp hv4
  have hvalid : isValidIP ip = true := by
    unfold isValidIP parseIP
    rw [hn]
    rfl
  have hipne : ip ≠ "" := by
    intro hc
    rw [hc] at hn
    have hnone : parseIPv4 ("" : String).data = none := rfl
    rw [hnone] at hn
    cases hn
  have hmap : loadIpMap [DnsLine.record ⟨host, [⟨some "A", some ip⟩]⟩] = [(ip, [host])] :=
    loadIpMap_singleA host ip hname hhost hvalid hipne
  have hlook : lookupOpt [(ip, [host])] ip = some [host] := by simp [lookupOpt]
  have hhit := processScanLine_hit [(ip, [host])] 1 ip "8080" [host] hcolon hstrip hvalid
    hlook (by simp)
  have hfmt : formatHost host (some "8080") = host ++ ":" ++ "8080" := by
    simp [formatHost]
  have hassoc : host ++ ":" ++ "8080" = host ++ ":8080" := by
    apply String.ext
    rw [String.data_append, String.data_append, String.data_append]
    simp
  unfold mainRun runScan
  rw [hmap]
  show ((processScanLine [(ip, [host])] 1 (ip ++ ":8080")).1 ++ [], _).1 = _
  rw [hhit]
  simp [hfmt, hassoc]

/-- Claim C6 witness: the round trip at `host`/`1.2.3.4`. -/
theorem claim6_witness :
    pyRstripDot "host" = "host" ∧ ("host" : String) ≠ "" ∧
    (parseIPv4 ("1.2.3.4" : String).data).isSome = true ∧
    ':' ∉ ("1.2.3.4" : String).data ∧
    pyStrip ("1.2.3.4" ++ ":8080") = "1.2.3.4" ++ ":8080" ∧
    (mainRun [DnsLine.record ⟨"host", [⟨some "A", some "1.2.3.4"⟩]⟩]
        ["1.2.3.4" ++ ":8080"]).1 = ["host" ++ ":8080"] :=
  ⟨by decide, by decide, by decide, by decide, by decide,
    claim6_round_trip "host" "1.2.3.4" (by decide) (by decide) (by decide) (by decide)
      (by decide)⟩

/-- Claim C7: a nonblank scan line whose IP portion (before the first
colon, or the whole stripped line) fails IP validation produces no
stdout line, exactly one stderr warning carrying its 1-based line number
and the offending text, and processing of the remaining lines continues
unchanged at the following line numbers — the failure is never fatal. -/
theorem claim7_invalid_ip (m : IpMap) (pre post : List String) (raw : String)
    (hne : pyStrip raw ≠ "")
    (hbad : isValidIP (pySplit1 (pyStrip raw) ':').1 = false) :
    runScan m (pre ++ raw :: post) =
      ((runScan m pre).1 ++ (runScanFrom m (pre.length + 2) post).1,
       (runScan m pre).2 ++
         warnInvalidIP (pre.length + 1) (pySplit1 (pyStrip raw) ':').1 ::
           (runScanFrom m (pre.length + 2) post).2) := by
  unfold runScan
  rw [runScanFrom_append]
  have h1 : 1 + pre.length = pre.length + 1 := by omega
  rw [h1]
  have hcons : runScanFrom m (pre.length + 1) (raw :: post) =
      ((processScanLine m (pre.length + 1) raw).1 ++
        (runScanFrom m (pre.length + 1 + 1) post).1,
       (processScanLine m (pre.length + 1) raw).2 ++
        (runScanFrom m (pre.length + 1 + 1) post).2) := rfl
  rw [hcons, processScanLine_invalid m (pre.length + 1) raw hne hbad]
  have h2 : pre.length + 1 + 1 = pre.length + 2 := by omega
  rw [h2]
  simp

/-- Claim C7 witness: a lone invalid line `bad ip`. -/
theorem claim7_witness :
    pyStrip "bad ip" ≠ "" ∧
    isValidIP (pySplit1 (pyStrip "bad ip") ':').1 = false ∧
    runScan [] ([] ++ "bad ip" :: []) =
      ((runScan ([] : IpMap) []).1 ++
        (runScanFrom ([] : IpMap) (([] : List String).length + 2) []).1,
       (runScan ([] : IpMap) []).2 ++
         warnInvalidIP (([] : List String).length + 1)
           (pySplit1 (pyStrip "bad ip") ':').1 ::
           (runScanFrom ([] : IpMap) (([] : List String).length + 2) []).2) :=
  ⟨by decide, by decide,
    claim7_invalid_ip [] [] [] "bad ip" (by decide) (by decide)⟩

/-- Claim C8: after the full first pass, the CNAME map holds at most one
target per hostname (its keys are duplicate-free), and the recorded
target is the last CNAME answer for that hostname in file order — last
write wins. -/
theorem claim8_last_write_wins (ls : List DnsLine) (h : String) :
    lookupOpt (firstPass ls).2 h = lastOr (cnameTargets ls h) none ∧
    (((firstPass ls).2).map Prod.fst).Nodup :=
  ⟨cname_lookup_firstPass ls h, cname_keys_nodup_firstPass ls⟩

/-- Claim C9: the correlation phase, embedded with the dictionary
threaded as state through every line (its one read being `dict.get`),
returns the Resolved Mapping unchanged for every scan file — key set and
hostname lists alike, also across lookups of absent IPs. -/
theorem claim9_frame (dns : List DnsLine) (scan : List String) :
    (runScanSt (loadIpMap dns) 1 scan).1 = loadIpMap dns :=
  runScanSt_fst scan (loadIpMap dns) 1

/-- Claim C10: a scan line of a valid IP followed by a colon with
nothing after it carries the empty port, which prints as no port: each
matched hostname is emitted bare. -/
theorem claim10_empty_port (m : IpMap) (n : Nat) (ip : String) (hosts : List String)
    (hcolon : ':' ∉ ip.data)
    (hstrip : pyStrip (ip ++ ":") = ip ++ ":")
    (hvalid : isValidIP ip = true)
    (hlook : lookupOpt m ip = some hosts)
    (hne : hosts ≠ []) :
    processScanLine m n (ip ++ ":") = (hosts, []) := by
  have hhit := processScanLine_hit m n ip "" hosts hcolon hstrip hvalid hlook hne
  rw [hhit]
  simp [formatHost]

/-- Claim C10 witness: `1.2.3.4:` emits the bare hostname. -/
theorem claim10_witness :
    ':' ∉ ("1.2.3.4" : String).data ∧
    pyStrip ("1.2.3.4" ++ ":") = "1.2.3.4" ++ ":" ∧
    isValidIP "1.2.3.4" = true ∧
    lookupOpt [("1.2.3.4", ["h"])] "1.2.3.4" = some ["h"] ∧
    (["h"] : List String) ≠ [] ∧
    processScanLine [("1.2.3.4", ["h"])] 7 ("1.2.3.4" ++ ":") = (["h"], []) :=
  ⟨by decide, by decide, by decide, by decide, by decide,
    claim10_empty_port [("1.2.3.4", ["h"])] 7 "1.2.3.4" ["h"] (by decide) (by decide)
      (by decide) (by decide) (by decide)⟩
